import Mathlib

/-!
Verification of `scripts/analyze_website.py` from the style-guide-generator
repository: a shallow embedding of its regex-based extraction pipeline
(colors, fonts, spacing, HTML components) together with theorems settling
the specification claims.

Strings are handled through their underlying character lists.  Each Python
regex used by the source is specialised into an executable matcher whose
backtracking behaviour has been collapsed into the deterministic scan the
pattern actually performs (justified in the doc comment of each matcher).
`re.findall` is the left-to-right, non-overlapping scan `scan` below.
-/

namespace StyleGuide

set_option maxRecDepth 100000

/-- ASCII whitespace accepted by the regex class \s. -/
def isSpaceChar (c : Char) : Bool :=
  c == ' ' || c == '\t' || c == '\n' || c == '\r' || c == '\x0b' || c == '\x0c'

/-- ASCII decimal digit, the regex class \d. -/
def isDigitChar (c : Char) : Bool :=
  '0' ≤ c && c ≤ '9'

/-- Hexadecimal digit, the regex class [0-9A-Fa-f]. -/
def isHexDigitChar (c : Char) : Bool :=
  isDigitChar c || ('a' ≤ c && c ≤ 'f') || ('A' ≤ c && c ≤ 'F')

/-- ASCII word character, the regex class \w (used by the boundary \b). -/
def isWordChar (c : Char) : Bool :=
  isDigitChar c || ('a' ≤ c && c ≤ 'z') || ('A' ≤ c && c ≤ 'Z') || c == '_'

/-- ASCII lower-to-upper conversion, modelling Python str.upper on the
matched color literals (which are ASCII by construction). -/
def upperChar (c : Char) : Char :=
  if 'a' ≤ c && c ≤ 'z' then Char.ofNat (c.toNat - 32) else c

/-- Python str.upper over a whole string. -/
def strUpper (s : String) : String :=
  String.mk (s.data.map upperChar)

/-- One left-to-right, non-overlapping scan of the input, as re.findall:
try the matcher at every position; on a match consuming n characters
resume right after the match, otherwise advance one character.  The fuel
argument only drives structural recursion; `scan` supplies enough. -/
def scanAux {α : Type} (m : List Char → Option (α × Nat)) : Nat → List Char → List α
  | 0, _ => []
  | _ + 1, [] => []
  | fuel + 1, c :: cs =>
    match m (c :: cs) with
    | some (a, n) => a :: scanAux m fuel (cs.drop (n - 1))
    | none => scanAux m fuel cs

/-- All matches of `m` over `l`, in order, non-overlapping (re.findall). -/
def scan {α : Type} (m : List Char → Option (α × Nat)) (l : List Char) : List α :=
  scanAux m (l.length + 1) l

/-- True when the first character of `l` is a word character (false at the
end of input); `!wordAhead l` is the trailing word boundary \b after a
word character. -/
def wordAhead : List Char → Bool
  | [] => false
  | c :: _ => isWordChar c

/-- Matcher for the source's hex pattern #[0-9A-Fa-f]{3,6}\b anchored at
the head of the input.  The greedy counted repetition with backtracking
against the trailing \b collapses to: the maximal run of hex digits after
the marker has length 3 to 6 and is not followed by a word character
(shorter candidate lengths always abut a further hex digit, which is a
word character, so \b fails there). -/
def tryHex : List Char → Option (List Char × Nat)
  | [] => none
  | c :: cs =>
    if c == '#' then
      let run := cs.takeWhile isHexDigitChar
      if 3 ≤ run.length && run.length ≤ 6 && !wordAhead (cs.drop run.length) then
        some ('#' :: run, run.length + 1)
      else none
    else none

/-- Drop the regex \s* prefix. -/
def skipSpaces (l : List Char) : List Char := l.dropWhile isSpaceChar

/-- Consume one expected literal character. -/
def expectChar (c : Char) : List Char → Option (List Char)
  | [] => none
  | d :: ds => if d == c then some ds else none

/-- Consume the regex \d+ (at least one digit, maximal run). -/
def takeDigits (l : List Char) : Option (List Char) :=
  let run := l.takeWhile isDigitChar
  if run.isEmpty then none else some (l.drop run.length)

/-- Matcher for the source's color pattern
rgba?\s*\(\s*\d+\s*,\s*\d+\s*,\s*\d+(?:\s*,\s*[\d.]+)?\s*\)
anchored at the head of the input (the source compiles it without
IGNORECASE).  Every greedy piece is followed by a character it can never
consume, and skipping the optional alpha group after its comma matched
would put a comma where the closing parenthesis is required, so the
deterministic maximal-munch parse below is exactly the regex's behaviour.
Returns the verbatim matched text and its length. -/
def tryRgb (input : List Char) : Option (List Char × Nat) :=
  match input with
  | 'r' :: 'g' :: 'b' :: rest0 =>
    let rest := match rest0 with
      | 'a' :: r => r
      | r => r
    let afterNums : Option (List Char) := do
      let r1 ← expectChar '(' (skipSpaces rest)
      let r2 ← takeDigits (skipSpaces r1)
      let r3 ← expectChar ',' (skipSpaces r2)
      let r4 ← takeDigits (skipSpaces r3)
      let r5 ← expectChar ',' (skipSpaces r4)
      takeDigits (skipSpaces r5)
    match afterNums with
    | none => none
    | some r6 =>
      let r7 : List Char :=
        match expectChar ',' (skipSpaces r6) with
        | some ra =>
          let body := skipSpaces ra
          let run := body.takeWhile (fun c => isDigitChar c || c == '.')
          if run.isEmpty then r6 else body.drop run.length
        | none => r6
      match expectChar ')' (skipSpaces r7) with
      | none => none
      | some r8 =>
        let n := input.length - r8.length
        some (input.take n, n)
  | _ => none

/-- Case-insensitive literal prefix match; returns the rest of the input. -/
def startsWithCI : List Char → List Char → Option (List Char)
  | [], l => some l
  | _ :: _, [] => none
  | p :: ps, c :: cs => if c.toLower == p.toLower then startsWithCI ps cs else none

/-- Exact literal prefix test. -/
def listStartsWith : List Char → List Char → Bool
  | [], _ => true
  | _ :: _, [] => false
  | p :: ps, c :: cs => p == c && listStartsWith ps cs

/-- Python's substring containment test `pat in s`. -/
def listContains (pat : List Char) : List Char → Bool
  | [] => listStartsWith pat []
  | c :: cs => listStartsWith pat (c :: cs) || listContains pat cs

/-- The hex color matches of a CSS text, verbatim and in order
(re.findall of the hex pattern, lines 37 to 38 of the source). -/
def hexMatches (css : String) : List String :=
  (scan tryHex css.data).map String.mk

/-- The rgb and rgba matches of a CSS text, verbatim and in order
(re.findall of the rgb pattern, lines 42 to 43 of the source). -/
def rgbMatches (css : String) : List String :=
  (scan tryRgb css.data).map String.mk

/-- The ColorSet record the source builds as a dict of three Python sets.
A set is modelled as a duplicate-free list in insertion order. -/
structure Colors where
  hex : List String
  rgb : List String
  rgba : List String
deriving Repr, DecidableEq

/-- Python set.add: append unless already present. -/
def addIfAbsent (acc : List String) (x : String) : List String :=
  if x ∈ acc then acc else acc ++ [x]

/-- Python set.update over a list of elements. -/
def setUpdate (acc : List String) (l : List String) : List String :=
  l.foldl addIfAbsent acc

/-- The routing loop body of extract_colors_from_css (lines 44 to 48):
a match containing the substring rgba goes into the rgba set,
every other match into the rgb set, verbatim. -/
def routeColor (c : Colors) (m : String) : Colors :=
  if listContains ("rgba".data) m.data then
    { c with rgba := addIfAbsent c.rgba m }
  else
    { c with rgb := addIfAbsent c.rgb m }

/-- Embedding of extract_colors_from_css (source lines 25 to 50):
uppercase every hex match and add it to the hex set, then route each
rgb/rgba match. -/
def extract_colors_from_css (css : String) : Colors :=
  let c1 : Colors := { hex := setUpdate [] ((hexMatches css).map strUpper), rgb := [], rgba := [] }
  (rgbMatches css).foldl routeColor c1

/-- Tail of a CSS declaration pattern: \s*:\s*([^;]+); anchored where the
property name ended.  The capture must end exactly at the first semicolon
after the colon (every character before it, whitespace included, lies in
the class of the capture).  The greedy \s* after the colon normally hands
the capture everything from the first non-whitespace character on; but
when only whitespace stands between the colon and that semicolon the
capture would be empty, and the greedy \s* backtracks exactly one step,
leaving the final whitespace character as the capture (further
backtracking is never needed, and with no whitespace at all there is no
match).  Returns the captured value and the total number of characters
the whole match consumed from `orig`. -/
def declValue (orig : List Char) (r1 : List Char) : Option (List Char × Nat) :=
  match expectChar ':' (skipSpaces r1) with
  | none => none
  | some r2 =>
    let ws := r2.takeWhile isSpaceChar
    let body := r2.drop ws.length
    let val := body.takeWhile (fun c => !(c == ';'))
    if val.isEmpty then
      match ws.getLast?, body with
      | some w, ';' :: r3 => some ([w], orig.length - r3.length)
      | _, _ => none
    else
      match expectChar ';' (body.drop val.length) with
      | none => none
      | some r3 => some (val, orig.length - r3.length)

/-- Matcher for the source's font pattern font-family\s*:\s*([^;]+); with
IGNORECASE, anchored at the head of the input; yields the capture. -/
def tryFontDecl (input : List Char) : Option (List Char × Nat) :=
  match startsWithCI ("font-family".data) input with
  | none => none
  | some r1 => declValue input r1

/-- Matcher for the source's spacing patterns margin(?:-\w+)?\s*:\s*([^;]+);
and padding(?:-\w+)?\s*:\s*([^;]+); with IGNORECASE, anchored at the head
of the input; `prop` is the property name literal.  If the optional suffix
group starts (a hyphen followed by at least one word character) it is
committed: on its failure the fallback \s*: would face the hyphen and
fail too, so the deterministic parse below is the regex's behaviour. -/
def trySpacingDecl (prop : List Char) (input : List Char) : Option (List Char × Nat) :=
  match startsWithCI prop input with
  | none => none
  | some r1 =>
    let r1' := match r1 with
      | '-' :: rs =>
        let run := rs.takeWhile isWordChar
        if run.isEmpty then r1 else rs.drop run.length
      | _ => r1
    declValue input r1'

/-- The captured font-family declaration values of a CSS text, in order
(re.findall of the font pattern, source lines 58 to 59). -/
def fontMatches (css : String) : List String :=
  (scan tryFontDecl css.data).map String.mk

/-- Strip leading and trailing ASCII whitespace (Python str.strip). -/
def stripChars (l : List Char) : List Char :=
  ((l.dropWhile isSpaceChar).reverse.dropWhile isSpaceChar).reverse

/-- The per-match cleanup of extract_fonts_from_css (source line 65):
remove double and single quotes, then strip surrounding whitespace. -/
def cleanFont (s : String) : String :=
  String.mk (stripChars (s.data.filter (fun c => !(c == '"' || c == '\''))))

/-- Embedding of extract_fonts_from_css (source lines 53 to 69): clean
each captured value and append it unless already present, preserving the
first-seen order. -/
def extract_fonts_from_css (css : String) : List String :=
  ((fontMatches css).map cleanFont).foldl addIfAbsent []

/-- The SpacingSet record the source builds as a dict of two Python sets. -/
structure Spacing where
  margins : List String
  paddings : List String
deriving Repr, DecidableEq

/-- The captured margin declaration values of a CSS text, in order
(re.findall of the margin pattern, source lines 83 to 84). -/
def marginMatches (css : String) : List String :=
  (scan (trySpacingDecl ("margin".data)) css.data).map String.mk

/-- The captured padding declaration values of a CSS text, in order
(re.findall of the padding pattern, source lines 88 to 89). -/
def paddingMatches (css : String) : List String :=
  (scan (trySpacingDecl ("padding".data)) css.data).map String.mk

/-- Embedding of extract_spacing_values (source lines 72 to 92). -/
def extract_spacing_values (css : String) : Spacing :=
  { margins := setUpdate [] (marginMatches css)
    paddings := setUpdate [] (paddingMatches css) }

/-- Find the first position where `pat` matches case-insensitively;
returns the offset of that position and the input remaining after the
matched occurrence. -/
def findCI (pat : List Char) : List Char → Option (Nat × List Char)
  | [] =>
    match startsWithCI pat [] with
    | some r => some (0, r)
    | none => none
  | c :: cs =>
    match startsWithCI pat (c :: cs) with
    | some r => some (0, r)
    | none =>
      match findCI pat cs with
      | some (i, r) => some (i + 1, r)
      | none => none

/-- Matcher for the source's element patterns of the shape
<name[^>]*>(.*?)</name> with IGNORECASE and DOTALL, anchored at the head
of the input.  The greedy [^>]* can only stop at the first closing angle
bracket of the open tag, and the lazy inner content ends at the first
case-insensitive occurrence of the literal close tag, so the parse is
deterministic.  Yields the verbatim whole match, the inner capture, and
the consumed length. -/
def tryElem (name : List Char) (input : List Char) : Option ((List Char × List Char) × Nat) :=
  match input with
  | '<' :: r0 =>
    match startsWithCI name r0 with
    | none => none
    | some r1 =>
      let attrs := r1.takeWhile (fun c => !(c == '>'))
      match expectChar '>' (r1.drop attrs.length) with
      | none => none
      | some r2 =>
        let close := ['<', '/'] ++ name ++ ['>']
        match findCI close r2 with
        | none => none
        | some (i, r3) =>
          let n := input.length - r3.length
          some ((input.take n, r2.take i), n)
  | _ => none

/-- The verbatim whole-fragment matches of <name...>...</name> in an HTML
text (re.findall with a pattern carrying no capture group). -/
def elemMatches (name : String) (html : String) : List String :=
  (scan (tryElem name.data) html.data).map (fun p => String.mk p.1)

/-- The inner-content captures of <name...>(...)</name> in an HTML text
(re.findall with a capture group returns the captures). -/
def elemInners (name : String) (html : String) : List String :=
  (scan (tryElem name.data) html.data).map (fun p => String.mk p.2)

/-- One record of the headings sequence (the dict built at source lines
127 to 130): the heading level, its total match count, and at most the
first three inner-content captures. -/
structure HeadingInfo where
  level : Nat
  count : Nat
  examples : List String
deriving Repr, DecidableEq

/-- The ComponentSummary record the source builds (lines 100 to 105). -/
structure Components where
  buttons : List String
  forms : Nat
  navigation : Nat
  headings : List HeadingInfo
deriving Repr, DecidableEq

/-- The tag name of heading level `n`, the f-string h{level}. -/
def headingName (n : Nat) : String :=
  "h" ++ Nat.repr n

/-- The body of the heading loop of analyze_html_structure (source lines
123 to 130): find the h-level fragments; when at least one exists, the
record with the level, the total count and the first three captures. -/
def headingRecord (html : String) (level : Nat) : Option HeadingInfo :=
  if (elemInners (headingName level) html).isEmpty then none
  else
    some { level := level
           count := (elemInners (headingName level) html).length
           examples := (elemInners (headingName level) html).take 3 }

/-- Embedding of analyze_html_structure (source lines 95 to 132): keep
the first five button fragments, count forms and navs, and for each
heading level 1 to 6 with at least one match append the record built by
`headingRecord`, in increasing level order. -/
def analyze_html_structure (html : String) : Components :=
  { buttons := (elemMatches "button" html).take 5
    forms := (elemMatches "form" html).length
    navigation := (elemMatches "nav" html).length
    headings := [1, 2, 3, 4, 5, 6].filterMap (headingRecord html) }

/-- Modelled from the spec: the host/domain component of the URL.  The
source computes it with the standard-library function
urllib.parse.urlparse, which is outside this repository; per the spec it
is the network-location component, scheme excluded, path/query/fragment
excluded: the text after the scheme separator up to the next slash,
question mark or hash. -/
def urlNetloc (url : String) : String :=
  match findCI ("://".data) url.data with
  | some (_, rest) =>
    String.mk (rest.takeWhile (fun c => !(c == '/' || c == '?' || c == '#')))
  | none => ""

/-- The DesignSystemReport record assembled by analyze_website (source
lines 147 to 158).  An Option field is `none` when the source leaves the
corresponding entry as its empty default. -/
structure DesignSystemReport where
  url : String
  domain : String
  colors : Option Colors
  fonts : Option (List String)
  spacing : Option Spacing
  components : Option Components
  version : String
deriving Repr, DecidableEq

/-- Embedding of analyze_website (source lines 135 to 168).  Python's
truthiness tests `if css_content:` and `if html_content:` are false both
for None and for the empty string, so an empty text leaves the defaults
in place exactly like an absent one. -/
def analyze_website (url : String) (html_content css_content : Option String) :
    DesignSystemReport :=
  let base : DesignSystemReport :=
    { url := url, domain := urlNetloc url, colors := none, fonts := none,
      spacing := none, components := none, version := "1.0" }
  let withCss :=
    match css_content with
    | some c =>
      if c = "" then base
      else { base with
              colors := some (extract_colors_from_css c)
              fonts := some (extract_fonts_from_css c)
              spacing := some (extract_spacing_values c) }
    | none => base
  match html_content with
  | some h =>
    if h = "" then withCss
    else { withCss with components := some (analyze_html_structure h) }
  | none => withCss

/-- CSS text with six margin declarations (two sharing the value 1px) and
six padding declarations (likewise), used to check deduplication. -/
def cssSixSpacing : String :=
  "margin-top: 1px; margin-bottom: 2px; margin-left: 3px; margin-right: 1px; margin: 4px; margin-top: 5px; padding-top: 1px; padding-bottom: 2px; padding-left: 3px; padding-right: 1px; padding: 4px; padding-top: 5px;"

/-- HTML text with seven button fragments, six form fragments and six nav
fragments, used to check the five-example cap against the exact counts. -/
def htmlSeven : String :=
  "<button>b1</button><button>b2</button><button>b3</button><button>b4</button><button>b5</button><button>b6</button><button>b7</button><form>f1</form><form>f2</form><form>f3</form><form>f4</form><form>f5</form><form>f6</form><nav>n1</nav><nav>n2</nav><nav>n3</nav><nav>n4</nav><nav>n5</nav><nav>n6</nav>"

/-- HTML text with four h2 fragments and no h1, used to check the
per-level heading records. -/
def htmlFourH2 : String :=
  "<h2>One</h2><h2>Two</h2><h2>Three</h2><h2>Four</h2>"

/-- Malformed text matching none of the extraction patterns. -/
def malformedText : String :=
  "<<<not css >>> rgb( nope #zz font-family margin padding <button>"

/-! Helper lemmas about the set and scan building blocks. -/

theorem mem_addIfAbsent {acc : List String} {x y : String} :
    y ∈ addIfAbsent acc x ↔ y ∈ acc ∨ y = x := by
  by_cases h : x ∈ acc <;> simp [addIfAbsent, h]
  exact fun hy => hy ▸ h

theorem nodup_addIfAbsent {acc : List String} {x : String} (h : acc.Nodup) :
    (addIfAbsent acc x).Nodup := by
  unfold addIfAbsent
  split
  · exact h
  · rename_i hx
    rw [← List.concat_eq_append]
    exact List.Nodup.concat hx h

theorem mem_foldl_addIfAbsent {y : String} :
    ∀ (l : List String) (acc : List String),
      y ∈ l.foldl addIfAbsent acc ↔ y ∈ acc ∨ y ∈ l := by
  intro l
  induction l with
  | nil => intro acc; simp
  | cons x xs ih =>
    intro acc
    rw [List.foldl_cons, ih, mem_addIfAbsent]
    simp [List.mem_cons]
    tauto

theorem nodup_foldl_addIfAbsent :
    ∀ (l : List String) (acc : List String), acc.Nodup →
      (l.foldl addIfAbsent acc).Nodup := by
  intro l
  induction l with
  | nil => intro acc h; exact h
  | cons x xs ih =>
    intro acc h
    rw [List.foldl_cons]
    exact ih _ (nodup_addIfAbsent h)

theorem foldl_addIfAbsent_append :
    ∀ (l : List String) (acc : List String),
      ∃ s, l.foldl addIfAbsent acc = acc ++ s ∧ s.Sublist l := by
  intro l
  induction l with
  | nil => intro acc; exact ⟨[], by simp⟩
  | cons x xs ih =>
    intro acc
    rw [List.foldl_cons]
    unfold addIfAbsent
    split
    · obtain ⟨s, hs, hsub⟩ := ih acc
      exact ⟨s, hs, hsub.cons x⟩
    · obtain ⟨s, hs, hsub⟩ := ih (acc ++ [x])
      exact ⟨x :: s, by simpa using hs, hsub.cons₂ x⟩

theorem mem_setUpdate {y : String} {acc l : List String} :
    y ∈ setUpdate acc l ↔ y ∈ acc ∨ y ∈ l :=
  mem_foldl_addIfAbsent l acc

theorem nodup_setUpdate {acc l : List String} (h : acc.Nodup) :
    (setUpdate acc l).Nodup :=
  nodup_foldl_addIfAbsent l acc h

theorem scanAux_forall {α : Type} {m : List Char → Option (α × Nat)} {P : α → Prop}
    (hm : ∀ l a n, m l = some (a, n) → P a) :
    ∀ (fuel : Nat) (l : List Char), ∀ a ∈ scanAux m fuel l, P a := by
  intro fuel
  induction fuel with
  | zero => intro l a ha; simp [scanAux] at ha
  | succ k ih =>
    intro l a ha
    match l with
    | [] => simp [scanAux] at ha
    | c :: cs =>
      rw [scanAux] at ha
      cases hme : m (c :: cs) with
      | none => rw [hme] at ha; exact ih cs a ha
      | some p =>
        rw [hme] at ha
        match p with
        | (b, n) =>
          rcases List.mem_cons.mp ha with h1 | h2
          · exact h1 ▸ hm (c :: cs) b n hme
          · exact ih _ a h2

theorem scan_forall {α : Type} {m : List Char → Option (α × Nat)} {P : α → Prop}
    (hm : ∀ l a n, m l = some (a, n) → P a) (l : List Char) :
    ∀ a ∈ scan m l, P a :=
  scanAux_forall hm (l.length + 1) l

theorem tryHex_shape {l : List Char} {a : List Char} {n : Nat}
    (h : tryHex l = some (a, n)) :
    ∃ run, a = '#' :: run ∧ (∀ c ∈ run, isHexDigitChar c = true) ∧
      3 ≤ run.length ∧ run.length ≤ 6 := by
  match l with
  | [] => simp [tryHex] at h
  | c :: cs =>
    simp only [tryHex] at h
    split at h
    · split at h
      · rename_i hcond
        simp only [Bool.and_eq_true, decide_eq_true_eq] at hcond
        cases h
        exact ⟨cs.takeWhile isHexDigitChar, rfl,
          fun c hc => List.mem_takeWhile_imp hc, hcond.1.1, hcond.1.2⟩
      · exact absurd h (by simp)
    · exact absurd h (by simp)

theorem foldl_routeColor_hex :
    ∀ (l : List String) (c : Colors), (l.foldl routeColor c).hex = c.hex := by
  intro l
  induction l with
  | nil => intro c; rfl
  | cons x xs ih =>
    intro c
    rw [List.foldl_cons, ih (routeColor c x)]
    unfold routeColor
    split <;> rfl

theorem mem_foldl_routeColor_rgba {y : String} :
    ∀ (l : List String) (c : Colors),
      (y ∈ (l.foldl routeColor c).rgba ↔
        y ∈ c.rgba ∨ (y ∈ l ∧ listContains ("rgba".data) y.data = true)) := by
  intro l
  induction l with
  | nil => intro c; simp
  | cons x xs ih =>
    intro c
    rw [List.foldl_cons, ih (routeColor c x)]
    by_cases hx : listContains ("rgba".data) x.data = true
    · simp only [routeColor, if_pos hx, mem_addIfAbsent, List.mem_cons]
      constructor
      · rintro ((hy | rfl) | ⟨hy, hc⟩)
        · exact Or.inl hy
        · exact Or.inr ⟨Or.inl rfl, hx⟩
        · exact Or.inr ⟨Or.inr hy, hc⟩
      · rintro (hy | ⟨(rfl | hy), hc⟩)
        · exact Or.inl (Or.inl hy)
        · exact Or.inl (Or.inr rfl)
        · exact Or.inr ⟨hy, hc⟩
    · simp only [routeColor, if_neg hx, List.mem_cons]
      constructor
      · rintro (hy | ⟨hy, hc⟩)
        · exact Or.inl hy
        · exact Or.inr ⟨Or.inr hy, hc⟩
      · rintro (hy | ⟨(rfl | hy), hc⟩)
        · exact Or.inl hy
        · exact absurd hc hx
        · exact Or.inr ⟨hy, hc⟩

theorem mem_foldl_routeColor_rgb {y : String} :
    ∀ (l : List String) (c : Colors),
      (y ∈ (l.foldl routeColor c).rgb ↔
        y ∈ c.rgb ∨ (y ∈ l ∧ listContains ("rgba".data) y.data = false)) := by
  intro l
  induction l with
  | nil => intro c; simp
  | cons x xs ih =>
    intro c
    rw [List.foldl_cons, ih (routeColor c x)]
    by_cases hx : listContains ("rgba".data) x.data = true
    · simp only [routeColor, if_pos hx, List.mem_cons]
      constructor
      · rintro (hy | ⟨hy, hc⟩)
        · exact Or.inl hy
        · exact Or.inr ⟨Or.inr hy, hc⟩
      · rintro (hy | ⟨(rfl | hy), hc⟩)
        · exact Or.inl hy
        · rw [hx] at hc; cases hc
        · exact Or.inr ⟨hy, hc⟩
    · simp only [routeColor, if_neg hx, mem_addIfAbsent, List.mem_cons]
      rw [Bool.not_eq_true] at hx
      constructor
      · rintro ((hy | rfl) | ⟨hy, hc⟩)
        · exact Or.inl hy
        · exact Or.inr ⟨Or.inl rfl, hx⟩
        · exact Or.inr ⟨Or.inr hy, hc⟩
      · rintro (hy | ⟨(rfl | hy), hc⟩)
        · exact Or.inl (Or.inl hy)
        · exact Or.inl (Or.inr rfl)
        · exact Or.inr ⟨hy, hc⟩

theorem nodup_foldl_routeColor :
    ∀ (l : List String) (c : Colors), c.rgb.Nodup → c.rgba.Nodup →
      ((l.foldl routeColor c).rgb.Nodup ∧ (l.foldl routeColor c).rgba.Nodup) := by
  intro l
  induction l with
  | nil => intro c h1 h2; exact ⟨h1, h2⟩
  | cons x xs ih =>
    intro c h1 h2
    rw [List.foldl_cons]
    by_cases hx : listContains ("rgba".data) x.data = true
    · simp only [routeColor, if_pos hx]
      exact ih _ h1 (nodup_addIfAbsent h2)
    · simp only [routeColor, if_neg hx]
      exact ih _ (nodup_addIfAbsent h1) h2

theorem extract_colors_hex_eq (css : String) :
    (extract_colors_from_css css).hex = setUpdate [] ((hexMatches css).map strUpper) := by
  unfold extract_colors_from_css
  exact foldl_routeColor_hex (rgbMatches css) _

theorem mem_extract_hex_iff (css m : String) :
    m ∈ (extract_colors_from_css css).hex ↔ ∃ m0 ∈ hexMatches css, m = strUpper m0 := by
  rw [extract_colors_hex_eq, mem_setUpdate]
  simp only [List.not_mem_nil, false_or, List.mem_map]
  constructor
  · rintro ⟨m0, hm0, rfl⟩
    exact ⟨m0, hm0, rfl⟩
  · rintro ⟨m0, hm0, rfl⟩
    exact ⟨m0, hm0, rfl⟩

/-! Claim theorems. -/

/-- C1 counterexample: the claim says no 4-digit hex form ever appears in
the hex collection, but the source pattern #[0-9A-Fa-f]{3,6}\b matches 3
to 6 digits: on the CSS text consisting of the single literal with four
hex digits after the marker, the hex collection holds exactly that
4-digit form (uppercased). -/
theorem hex_four_digit_counterexample :
    (extract_colors_from_css "#ffff").hex = ["#FFFF"] ∧
    ("#FFFF" : String).data = ['#', 'F', 'F', 'F', 'F'] := by
  exact ⟨rfl, rfl⟩

/-- C1 amended: the hex collection contains exactly the uppercased
matches of the literal marker followed by 3 to 6 hexadecimal digits
terminated by a word boundary; 4- and 5-digit forms therefore do appear,
while 8-digit forms never match (an 8-digit literal yields no hex
entry). -/
theorem hex_collection_shape :
    (∀ (css m : String),
      m ∈ (extract_colors_from_css css).hex ↔ ∃ m0 ∈ hexMatches css, m = strUpper m0) ∧
    (∀ (css m0 : String), m0 ∈ hexMatches css →
      ∃ run, m0.data = '#' :: run ∧ (∀ c ∈ run, isHexDigitChar c = true) ∧
        3 ≤ run.length ∧ run.length ≤ 6) ∧
    hexMatches "#ffffffff" = [] ∧
    (extract_colors_from_css "#ffffffff").hex = [] := by
  refine ⟨mem_extract_hex_iff, ?_, rfl, rfl⟩
  · intro css m0 hm0
    unfold hexMatches at hm0
    rcases List.mem_map.mp hm0 with ⟨a, ha, rfl⟩
    exact scan_forall (fun l a n h => tryHex_shape h) css.data a ha

/-- C1 amended witness at a concrete input: the 3-digit literal is
matched and its uppercased form is in the hex collection. -/
theorem hex_collection_shape_witness :
    "#ABC" ∈ (extract_colors_from_css "#abc").hex :=
  (hex_collection_shape.1 "#abc" "#ABC").mpr ⟨"#abc", by decide, by decide⟩

/-- C3: every hex literal matched is uppercased before insertion, and the
hex collection is deduplicated after that normalization; the input
holding the same 3-digit literal in lower and upper case yields the
single uppercased entry. -/
theorem hex_uppercased_deduplicated :
    (∀ css : String,
      (extract_colors_from_css css).hex.Nodup ∧
      ∀ m ∈ (extract_colors_from_css css).hex, ∃ m0 ∈ hexMatches css, m = strUpper m0) ∧
    (extract_colors_from_css "#fff #FFF").hex = ["#FFF"] := by
  refine ⟨fun css => ⟨?_, ?_⟩, rfl⟩
  · rw [extract_colors_hex_eq]
    exact nodup_setUpdate List.nodup_nil
  · intro m hm
    exact (mem_extract_hex_iff css m).mp hm

/-- C3 witness at a concrete input: the entry of the deduplicated hex
collection is the uppercase image of a matched literal. -/
theorem hex_uppercased_deduplicated_witness :
    "#FFF" ∈ (extract_colors_from_css "#fff #FFF").hex ∧ "#FFF" = strUpper "#fff" := by
  refine ⟨?_, by decide⟩
  have h := (hex_uppercased_deduplicated.1 "#fff #FFF").1
  rw [hex_uppercased_deduplicated.2]
  decide

/-- C4: every rgb/rgba match is stored verbatim and routed by substring:
a match containing the substring rgba lands in the rgba collection and
never the rgb collection, and every other match lands in the rgb
collection and never the rgba collection; concretely the rgba literal
goes to rgba only and the rgb literal to rgb only. -/
theorem rgb_rgba_routing :
    (∀ (css m : String),
      (m ∈ (extract_colors_from_css css).rgba ↔
        m ∈ rgbMatches css ∧ listContains ("rgba".data) m.data = true) ∧
      (m ∈ (extract_colors_from_css css).rgb ↔
        m ∈ rgbMatches css ∧ listContains ("rgba".data) m.data = false)) ∧
    (extract_colors_from_css "rgba(0,0,0,0.5) rgb(0,0,0)").rgba = ["rgba(0,0,0,0.5)"] ∧
    (extract_colors_from_css "rgba(0,0,0,0.5) rgb(0,0,0)").rgb = ["rgb(0,0,0)"] := by
  refine ⟨fun css m => ⟨?_, ?_⟩, rfl, rfl⟩
  · unfold extract_colors_from_css
    rw [mem_foldl_routeColor_rgba]
    simp
  · unfold extract_colors_from_css
    rw [mem_foldl_routeColor_rgb]
    simp

/-- C4 witness at a concrete input: the rgba literal is a member of the
rgba collection and not of the rgb collection. -/
theorem rgb_rgba_routing_witness :
    "rgba(0,0,0,0.5)" ∈ (extract_colors_from_css "rgba(0,0,0,0.5) rgb(0,0,0)").rgba ∧
    "rgba(0,0,0,0.5)" ∉ (extract_colors_from_css "rgba(0,0,0,0.5) rgb(0,0,0)").rgb := by
  constructor
  · exact (rgb_rgba_routing.1 _ "rgba(0,0,0,0.5)").1.mpr ⟨by decide, by decide⟩
  · intro hmem
    have h := ((rgb_rgba_routing.1 _ "rgba(0,0,0,0.5)").2.mp hmem).2
    revert h
    decide

/-- C6: the margins and paddings collections never contain duplicate
value strings; on the CSS text with six margin and six padding
declarations where two share a value, each collection has the five
distinct values, hence at most six entries and no duplicates.  A margin
declaration whose value is only whitespace is still captured (as the
single backtracked whitespace character). -/
theorem spacing_sets_deduplicated :
    (∀ css : String,
      (extract_spacing_values css).margins.Nodup ∧
      (extract_spacing_values css).paddings.Nodup) ∧
    (extract_spacing_values cssSixSpacing).margins = ["1px", "2px", "3px", "4px", "5px"] ∧
    (extract_spacing_values cssSixSpacing).margins.length ≤ 6 ∧
    (extract_spacing_values cssSixSpacing).paddings = ["1px", "2px", "3px", "4px", "5px"] ∧
    (extract_spacing_values cssSixSpacing).paddings.length ≤ 6 ∧
    (marginMatches cssSixSpacing).length = 6 ∧
    (paddingMatches cssSixSpacing).length = 6 ∧
    (extract_spacing_values "margin:  ;").margins = [" "] := by
  refine ⟨fun css => ⟨nodup_setUpdate List.nodup_nil, nodup_setUpdate List.nodup_nil⟩,
    by decide, by decide, by decide, by decide, by decide, by decide, by decide⟩

/-- C10: the margin and padding matchers have no left word boundary on
the property name: a declaration whose property name merely ends in
margin or padding is still captured into the corresponding collection. -/
theorem spacing_no_left_word_boundary :
    (extract_spacing_values "xmargin: 5px; xpadding: 2px;").margins = ["5px"] ∧
    (extract_spacing_values "xmargin: 5px; xpadding: 2px;").paddings = ["2px"] := by
  exact ⟨rfl, rfl⟩

/-- C5: the font list holds the cleaned declaration values in first-seen
order (a subsequence of the cleaned capture sequence), a cleaned value is
appended only when not already present (no duplicates, every cleaned
capture present), and the example declaration yields the single cleaned
entry with quotes stripped and the semicolon excluded.  A declaration
whose value is only whitespace is still matched (the backtracked capture
is the final whitespace character, cleaned to the empty string). -/
theorem fonts_cleaned_first_seen_dedup :
    (∀ css : String,
      (extract_fonts_from_css css).Nodup ∧
      (extract_fonts_from_css css).Sublist ((fontMatches css).map cleanFont) ∧
      ∀ x ∈ (fontMatches css).map cleanFont, x ∈ extract_fonts_from_css css) ∧
    extract_fonts_from_css "font-family: \"Helvetica Neue\", Arial, sans-serif;" =
      ["Helvetica Neue, Arial, sans-serif"] ∧
    fontMatches "font-family: ;" = [" "] ∧
    extract_fonts_from_css "font-family: ;" = [""] := by
  refine ⟨fun css => ⟨?_, ?_, ?_⟩, rfl, rfl, rfl⟩
  · exact nodup_foldl_addIfAbsent _ [] List.nodup_nil
  · obtain ⟨s, hs, hsub⟩ := foldl_addIfAbsent_append ((fontMatches css).map cleanFont) []
    unfold extract_fonts_from_css
    rw [hs]
    simpa using hsub
  · intro x hx
    exact (mem_foldl_addIfAbsent _ _).mpr (Or.inr hx)

/-- C5 witness at a concrete input: the cleaned capture is a member of
the returned font list. -/
theorem fonts_cleaned_first_seen_dedup_witness :
    "Helvetica Neue, Arial, sans-serif" ∈
      extract_fonts_from_css "font-family: \"Helvetica Neue\", Arial, sans-serif;" :=
  (fonts_cleaned_first_seen_dedup.1 _).2.2 "Helvetica Neue, Arial, sans-serif" (by decide)

/-- C7: the button examples are capped at the first five fragments while
the form and navigation counts stay exact: on the HTML text with seven
buttons, six forms and six navs, the examples sequence has length five
and the counts are six each, unbounded by the cap. -/
theorem buttons_capped_counts_exact :
    (∀ html : String,
      (analyze_html_structure html).buttons.length ≤ 5 ∧
      (analyze_html_structure html).buttons = (elemMatches "button" html).take 5 ∧
      (analyze_html_structure html).forms = (elemMatches "form" html).length ∧
      (analyze_html_structure html).navigation = (elemMatches "nav" html).length) ∧
    (elemMatches "button" htmlSeven).length = 7 ∧
    (analyze_html_structure htmlSeven).buttons.length = 5 ∧
    (analyze_html_structure htmlSeven).forms = 6 ∧
    (analyze_html_structure htmlSeven).navigation = 6 := by
  refine ⟨fun html => ⟨?_, rfl, rfl, rfl⟩, by decide, by decide, by decide, by decide⟩
  have h : (analyze_html_structure html).buttons = (elemMatches "button" html).take 5 := rfl
  rw [h, List.length_take]
  exact inf_le_left

theorem headingRecord_level {html : String} {lv : Nat} {r : HeadingInfo}
    (h : headingRecord html lv = some r) : r.level = lv := by
  unfold headingRecord at h
  split at h
  · cases h
  · cases h; rfl

/-- C8: the headings sequence holds, in increasing level order, one
record per heading level with at least one match, carrying that level's
exact match count and at most the first three inner captures, and no
record for a level without matches; the HTML text with four h2 fragments
and no h1 yields exactly the single level-2 record with count four and
three examples. -/
theorem headings_per_level_records :
    (∀ html : String,
      List.Pairwise (fun a b => a.level < b.level) (analyze_html_structure html).headings ∧
      ∀ r : HeadingInfo,
        r ∈ (analyze_html_structure html).headings ↔
          (1 ≤ r.level ∧ r.level ≤ 6 ∧
           elemInners (headingName r.level) html ≠ [] ∧
           r.count = (elemInners (headingName r.level) html).length ∧
           r.examples = (elemInners (headingName r.level) html).take 3)) ∧
    (analyze_html_structure htmlFourH2).headings =
      [{ level := 2, count := 4, examples := ["One", "Two", "Three"] }] := by
  refine ⟨fun html => ⟨?_, ?_⟩, by decide⟩
  · have hp : List.Pairwise (fun a b : Nat => a < b) [1, 2, 3, 4, 5, 6] := by decide
    refine List.Pairwise.filterMap (headingRecord html) ?_ hp
    intro a b hab r hr r' hr'
    rw [headingRecord_level (Option.mem_def.mp hr), headingRecord_level (Option.mem_def.mp hr')]
    exact hab
  · intro r
    show _ ∈ List.filterMap (headingRecord html) [1, 2, 3, 4, 5, 6] ↔ _
    rw [List.mem_filterMap]
    constructor
    · rintro ⟨lv, hlv, hr⟩
      have hb : lv = 1 ∨ lv = 2 ∨ lv = 3 ∨ lv = 4 ∨ lv = 5 ∨ lv = 6 := by
        simpa using hlv
      unfold headingRecord at hr
      split at hr
      · cases hr
      · rename_i hne
        rw [List.isEmpty_iff] at hne
        simp only [Option.some.injEq] at hr
        subst hr
        exact ⟨by show 1 ≤ lv; omega, by show lv ≤ 6; omega, hne, rfl, rfl⟩
    · rintro ⟨h1, h6, hne, hc, he⟩
      refine ⟨r.level, ?_, ?_⟩
      · simp only [List.mem_cons, List.not_mem_nil, or_false]
        omega
      · unfold headingRecord
        rw [if_neg (by rw [List.isEmpty_iff]; exact hne)]
        rw [Option.some.injEq, ← hc, ← he]

/-- C8 witness at a concrete input: the level-2 record of the four-h2
text satisfies the characterization, so it is a member of the headings
sequence. -/
theorem headings_per_level_records_witness :
    ({ level := 2, count := 4, examples := ["One", "Two", "Three"] } : HeadingInfo) ∈
      (analyze_html_structure htmlFourH2).headings :=
  ((headings_per_level_records.1 htmlFourH2).2 _).mpr
    ⟨by decide, by decide, by decide, by decide, by decide⟩

/-- C9: every extraction function is total by construction in this
embedding (each is a Lean function defined for every string), and an
input with no matches yields empty collections: each collection is empty
when its match list is, and the malformed text yields entirely empty
records. -/
theorem extractors_total_empty_on_no_match :
    (∀ css : String,
      (hexMatches css = [] → (extract_colors_from_css css).hex = []) ∧
      (rgbMatches css = [] →
        (extract_colors_from_css css).rgb = [] ∧ (extract_colors_from_css css).rgba = []) ∧
      (fontMatches css = [] → extract_fonts_from_css css = []) ∧
      (marginMatches css = [] → (extract_spacing_values css).margins = []) ∧
      (paddingMatches css = [] → (extract_spacing_values css).paddings = [])) ∧
    (∀ html : String,
      (elemMatches "button" html = [] → (analyze_html_structure html).buttons = []) ∧
      ((∀ n, elemInners (headingName n) html = []) →
        (analyze_html_structure html).headings = [])) ∧
    extract_colors_from_css malformedText = { hex := [], rgb := [], rgba := [] } ∧
    extract_fonts_from_css malformedText = [] ∧
    extract_spacing_values malformedText = { margins := [], paddings := [] } ∧
    analyze_html_structure malformedText =
      { buttons := [], forms := 0, navigation := 0, headings := [] } := by
  refine ⟨fun css => ⟨?_, ?_, ?_, ?_, ?_⟩, fun html => ⟨?_, ?_⟩,
    by decide, by decide, by decide, by decide⟩
  · intro h
    rw [extract_colors_hex_eq, h]
    rfl
  · intro h
    unfold extract_colors_from_css
    rw [h]
    exact ⟨rfl, rfl⟩
  · intro h
    unfold extract_fonts_from_css
    rw [h]
    rfl
  · intro h
    unfold extract_spacing_values
    rw [h]
    rfl
  · intro h
    unfold extract_spacing_values
    rw [h]
    rfl
  · intro h
    have hb : (analyze_html_structure html).buttons = (elemMatches "button" html).take 5 := rfl
    rw [hb, h]
    rfl
  · intro h
    have hh : (analyze_html_structure html).headings =
        List.filterMap (headingRecord html) [1, 2, 3, 4, 5, 6] := rfl
    rw [hh]
    simp [List.filterMap_cons, headingRecord, h 1, h 2, h 3, h 4, h 5, h 6]

/-- C9 witness at a concrete input: a text without any hex match yields
an empty hex collection. -/
theorem extractors_total_empty_witness :
    (extract_colors_from_css "plain text").hex = [] :=
  (extractors_total_empty_on_no_match.1 "plain text").1 (by decide)

/-- C2 counterexample: the claim says the extractors are invoked for
every non-absent css_text including the empty string, but Python's
truthiness test treats the empty string like an absent one: with the
empty CSS text supplied, all three fields stay at their empty defaults
instead of holding the extractors' results. -/
theorem analyze_empty_css_counterexample :
    (analyze_website "https://example.com" none (some "")).colors = none ∧
    (analyze_website "https://example.com" none (some "")).fonts = none ∧
    (analyze_website "https://example.com" none (some "")).spacing = none := by
  exact ⟨rfl, rfl, rfl⟩

/-- C2 amended: for every URL and every non-empty css_text, analyze
invokes the color, font and spacing extractors and fills the report
fields with their results; when css_text is absent (or empty, which the
truthiness test conflates with absent) those fields stay at their empty
defaults. -/
theorem analyze_populates_extractor_fields :
    (∀ (url : String) (html : Option String) (css : String), css ≠ "" →
      (analyze_website url html (some css)).colors = some (extract_colors_from_css css) ∧
      (analyze_website url html (some css)).fonts = some (extract_fonts_from_css css) ∧
      (analyze_website url html (some css)).spacing = some (extract_spacing_values css)) ∧
    (∀ (url : String) (html : Option String),
      (analyze_website url html none).colors = none ∧
      (analyze_website url html none).fonts = none ∧
      (analyze_website url html none).spacing = none) := by
  constructor
  · intro url html css hcss
    unfold analyze_website
    cases html with
    | none => simp [hcss]
    | some h =>
      by_cases hh : h = "" <;> simp [hcss, hh]
  · intro url html
    unfold analyze_website
    cases html with
    | none => exact ⟨rfl, rfl, rfl⟩
    | some h =>
      by_cases hh : h = "" <;> simp [hh]

/-- C2 amended witness at a concrete input: with a non-empty CSS text the
spacing field holds the spacing extractor's result. -/
theorem analyze_populates_extractor_fields_witness :
    (analyze_website "https://example.com" none (some "margin: 1px;")).spacing =
      some (extract_spacing_values "margin: 1px;") :=
  (analyze_populates_extractor_fields.1 "https://example.com" none "margin: 1px;"
    (by decide)).2.2

end StyleGuide
